import Mathlib

/-!
# Verification of the HORA interval-to-hourly-bucket aggregation core

A shallow embedding of the aggregation engine of the HORA repository
(`src/modules/function.py`, `sce2.py`–`sce5.py`) together with proofs and
refutations of the specified properties.

Modelling conventions:
* A calendar date is a day index `z : ℕ` counting days since 0000-03-01 of the
  proleptic Gregorian calendar (the epoch of the standard civil-from-days
  algorithm).  That day was a Wednesday, so the weekday index of `z` (with
  `0 = Sunday`, matching `_WEEKDAY_ORDER`) is `(z + 3) % 7`.
* A time of day is a number of minutes since midnight, `0 ≤ m < 1440`; a
  timestamp inside one row's processing is minutes relative to midnight of the
  row's own date (or of the `1900-01-01` reference date used by `sce5.py`).
* Exact rational arithmetic stands in for float arithmetic; the special float
  values produced by division (`NaN`, `inf`) are represented explicitly by
  `PFloat` so that `fill_nan` and the strict integer cast keep their real
  behaviour.
-/

namespace HORA

/-- The canonical weekday ordering `_WEEKDAY_ORDER` shared by all modules. -/
def WEEKDAY_ORDER : List String :=
  ["Sunday", "Monday", "Tuesday", "Wednesday", "Thursday", "Friday", "Saturday"]

/-- Weekday index of day `z` (days since 0000-03-01), `0 = Sunday` …
`6 = Saturday`; day 0 was a Wednesday, hence the offset `3`. -/
def weekdayIdx (z : ℕ) : ℕ := (z + 3) % 7

/-- English weekday name of day `z`, as produced by `strftime('%A')`. -/
def weekdayName (z : ℕ) : String := WEEKDAY_ORDER.getD (weekdayIdx z) ""

/-- Day-of-month (1–31) of day `z`, by the standard civil-from-days algorithm
(used to model `Date.dt.day` / `pd.to_datetime(...).dt.day`). -/
def civilDay (z : ℕ) : ℕ :=
  let doe := z % 146097
  let yoe := (doe - doe / 1460 + doe / 36524 - doe / 146096) / 365
  let doy := doe - (365 * yoe + yoe / 4 - yoe / 100)
  let mp := (5 * doy + 2) / 153
  doy - (153 * mp + 2) / 5 + 1

/-- Year-month key of day `z` (`12 * year + month`), the model of the
`strftime('%Y-%m')` label used for distinct-month counting. -/
def monthKey (z : ℕ) : ℕ :=
  let era := z / 146097
  let doe := z % 146097
  let yoe := (doe - doe / 1460 + doe / 36524 - doe / 146096) / 365
  let doy := doe - (365 * yoe + yoe / 4 - yoe / 100)
  let mp := (5 * doy + 2) / 153
  let m := if mp < 10 then mp + 3 else mp - 9
  let y := era * 400 + yoe + (if m ≤ 2 then 1 else 0)
  12 * y + m

/-- Week-of-month label (1–5) of day `z`: the `pd.cut(day, bins=[0,7,14,21,28,31])`
classification of `_assign_month_and_week` (and the `when/then` chain in `sce3.py`). -/
def weekOfMonth (z : ℕ) : ℕ :=
  let d := civilDay z
  if d ≤ 7 then 1 else if d ≤ 14 then 2 else if d ≤ 21 then 3
  else if d ≤ 28 then 4 else 5

/-! ## Interval Parser: cross-midnight adjustment

`function.py._parse_time_series` (and the `wrap_mask` of
`sce5._compute_duration_matrix`) shift the out-timestamp by one day only when it
is strictly earlier than the in-timestamp, while
`_compute_presence_matrix` / `_compute_duration_matrix` (the pandas versions in
`function.py`, `sce2.py`–`sce4.py`) shift when `Out_dt <= In_dt`. -/

/-- Adjusted out-time of `function.py._parse_time_series` handle-cross-day step:
`when(Out_dt < In_dt).then(Out_dt + 1 day)`.  Times in minutes. -/
def parse_time_series_out (inM outM : ℕ) : ℕ :=
  if outM < inM then outM + 1440 else outM

/-- Adjusted out-time of the pandas bucketizers
(`df.loc[df['Out_dt'] <= df['In_dt'], 'Out_dt'] += 1 day`). -/
def presence_out (inM outM : ℕ) : ℕ :=
  if outM ≤ inM then outM + 1440 else outM

/-! ## Hourly Bucketizer, presence mode (`function.py._compute_presence_matrix`) -/

/-- The `hour_range` helper: whole-hour timestamps starting at the floor of the
in-timestamp, stepping one hour while strictly before the (adjusted)
out-timestamp.  Minutes relative to midnight of the row's date. -/
def hourRange (cur fin : ℕ) : List ℕ :=
  if cur < fin then cur :: hourRange (cur + 60) fin else []
termination_by fin - cur
decreasing_by omega

/-- Value of hour column `h` of the row's start-day output row in the presence
matrix: the row's `Count` is summed into bucket `(Date, h)` exactly when the
timestamp `h:00` of the start day occurs in `hour_range`, else the
`pivot` + `fillna(0)` leaves `0`. -/
def presenceCell (inM outM count h : ℕ) : ℕ :=
  if 60 * h ∈ hourRange (60 * (inM / 60)) (presence_out inM outM) then count else 0

/-! ## Hourly Bucketizer, sce5 duration mode (`sce5._compute_duration_matrix`) -/

/-- `_TIME_BIN_START`: bin `h` starts at `h:00` of the reference day. -/
def TIME_BIN_START (h : ℕ) : ℤ := 60 * h

/-- `_TIME_BIN_END`: bin `h` ends at `((h+1) mod 24):00` **of the same reference
day** — for `h = 23` this is `00:00`, i.e. minute `0`, not minute `1440`. -/
def TIME_BIN_END (h : ℕ) : ℤ := 60 * (((h + 1) % 24 : ℕ) : ℤ)

/-- The `wrap_mask` adjustment of `sce5._compute_duration_matrix`:
`out_times.where(~(out_times < in_times), out_times + 1 day)`. -/
def sce5_out (inM outM : ℤ) : ℤ :=
  if outM < inM then outM + 1440 else outM

/-- Hour column `h` produced by `sce5._compute_duration_matrix` for one row:
overlap of `[in, out')` with bin `h`, clipped at `0`, converted to hours and
scaled by `Count`. -/
def sce5_durationCell (inM outM count : ℤ) (h : ℕ) : ℚ :=
  ((count * max 0 (min (sce5_out inM outM) (TIME_BIN_END h)
      - max inM (TIME_BIN_START h)) : ℤ) : ℚ) / 60

/-! ## Rounding primitives -/

/-- Rounding used by polars `.round()` (Rust `f64::round`): round half away
from zero. -/
def roundHalfAway (q : ℚ) : ℤ :=
  if q < 0 then -⌊-q + 1/2⌋ else ⌊q + 1/2⌋

/-- Rounding used by pandas / numpy `.round()`: round half to even. -/
def roundHalfEven (q : ℚ) : ℤ :=
  if q - ⌊q⌋ < 1/2 then ⌊q⌋ else if 1/2 < q - ⌊q⌋ then ⌊q⌋ + 1
  else if 2 ∣ ⌊q⌋ then ⌊q⌋ else ⌊q⌋ + 1

/-! ## Float semantics of the polars normalizer pipeline -/

/-- Result of a float operation: an ordinary (exactly represented) value, or
one of the special values a division can produce. -/
inductive PFloat where
  | num (q : ℚ)
  | nan
  | posInf
  | negInf
deriving DecidableEq

/-- Float division as performed by polars `col / series`:
`0 / 0 = NaN`, `x / 0 = ±inf` for `x ≠ 0`. -/
def floatDiv (n d : ℚ) : PFloat :=
  if d = 0 then (if n = 0 then .nan else if 0 < n then .posInf else .negInf)
  else .num (n / d)

/-- `fill_nan(0)`: replaces `NaN` (and nothing else) by `0`. -/
def fillNanZero (x : PFloat) : PFloat :=
  match x with
  | .nan => .num 0
  | x => x

/-- `.round().cast(Int64)`: rounding keeps special values, and the strict cast
to `Int64` fails on them (`none`); an ordinary value is rounded half away from
zero and cast. -/
def roundCastCell (x : PFloat) : Option ℤ :=
  match x with
  | .num q => some (roundHalfAway q)
  | _ => none

/-! ## Grouping / Rollup / Normalizer (`function.py`, `sce2.py`) -/

/-- One row of a presence/duration matrix: its date and its 24 hour columns. -/
structure MatrixRow where
  date : ℕ
  hours : Fin 24 → ℚ

/-- Group-by-weekday sum of hour column `h` over all rows whose date falls on
weekday `w` (the `group_by('weekday').agg(sum)` step). -/
def rawCell (rows : List MatrixRow) (w : ℕ) (h : Fin 24) : ℚ :=
  ((rows.filter (fun r => weekdayIdx r.date = w)).map (fun r => r.hours h)).sum

/-- The distinct dates occurring in the matrix
(`df_with_time.get_column('Date').unique()`). -/
def dataDates (rows : List MatrixRow) : List ℕ :=
  (rows.map MatrixRow.date).dedup

/-- The per-weekday divisor actually computed by
`function.py._compute_normalized_heatmap` (and `sce2.py`): the number of
**distinct dates present in the data** falling on weekday `w` (after the left
join against all weekdays, absent weekdays get `0`). -/
def dayCountData (rows : List MatrixRow) (w : ℕ) : ℕ :=
  ((dataDates rows).filter (fun d => weekdayIdx d = w)).length

/-- One cell of the normalized heatmap of `function.py` / `sce2.py`:
`(raw / day_count).fill_nan(0).round().cast(Int64)`. -/
def normalizedCell (rows : List MatrixRow) (w : ℕ) (h : Fin 24) : Option ℤ :=
  roundCastCell (fillNanZero (floatDiv (rawCell rows w h) (dayCountData rows w)))

/-- The normalized heatmap: the left join of the canonical weekday frame with
the aggregate keeps the seven canonical rows in canonical order. -/
def normalizedHeatmap (rows : List MatrixRow) : List (String × (Fin 24 → Option ℤ)) :=
  (List.range 7).map (fun w => (WEEKDAY_ORDER.getD w "", fun h => normalizedCell rows w h))

/-- The inclusive calendar date list built by the `while cur <= end_dt` loops
(`sce2`/`sce4._compute_normalized_heatmap`, `_weekday_total_summary`). -/
def dateRange (s e : ℕ) : List ℕ :=
  (List.range (e + 1 - s)).map (fun i => s + i)

/-- The per-weekday divisor of `sce4._compute_normalized_heatmap`: occurrences
of weekday `w` among the calendar dates of the inclusive range `[s, e]`. -/
def sce4_dayCount (s e w : ℕ) : ℕ :=
  ((dateRange s e).filter (fun d => weekdayIdx d = w)).length

/-! ## `_weekday_total_summary` row keys (`function.py` / `sce2.py`) -/

/-- Byte-lexicographic comparison of strings, the order used by polars
`.sort('weekday')` on a string column. -/
def lexLe : List Char → List Char → Bool
  | [], _ => true
  | _ :: _, [] => false
  | a :: as, b :: bs =>
    if a.toNat < b.toNat then true
    else if b.toNat < a.toNat then false
    else lexLe as bs

/-- String comparison wrapper for `lexLe`. -/
def strLe (s t : String) : Bool := lexLe s.data t.data

/-- Insertion into a list sorted by `le`. -/
def insertBy (le : α → α → Bool) (a : α) : List α → List α
  | [] => [a]
  | b :: bs => if le a b then a :: b :: bs else b :: insertBy le a bs

/-- Insertion sort by `le`, the model of a stable sort of distinct keys. -/
def sortBy (le : α → α → Bool) : List α → List α
  | [] => []
  | a :: as => insertBy le a (sortBy le as)

/-- Row keys returned by `_weekday_total_summary`: the weekday names actually
present in the data, filtered to the canonical set, then sorted by
`.sort('weekday')` — i.e. **alphabetically**; absent weekdays yield no row. -/
def weekdayTotalKeys (rows : List MatrixRow) : List String :=
  sortBy strLe
    (((rows.map (fun r => weekdayName r.date)).dedup).filter
      (fun s => s ∈ WEEKDAY_ORDER))

/-! ## Week-of-month analysis -/

/-- The canonical position of a weekday name
(`weekday_order_map` in `sce3._compute_week_hm_data`). -/
def canonIdx (s : String) : ℕ := WEEKDAY_ORDER.indexOf s

/-- Row keys of `sce3._compute_week_hm_data` (same code in
`function.py._compute_week_hm_data`): weekdays **present** in the subset
filtered to `week_label`, sorted by the canonical map; `fill_null(0)` fills
nulls in existing rows but adds no rows for absent weekdays. -/
def sce3_weekKeys (rows : List MatrixRow) (wk : ℕ) : List String :=
  sortBy (fun a b => Nat.ble (canonIdx a) (canonIdx b))
    ((((rows.filter (fun r => weekOfMonth r.date = wk)).map
        (fun r => weekdayName r.date)).dedup).filter (fun s => s ∈ WEEKDAY_ORDER))

/-- Number of distinct `%Y-%m` months among the rows of the filtered week
(`month_count` in `function.py` / `sce3._compute_week_hm_data`). -/
def function_weekMonthCount (rows : List MatrixRow) (wk : ℕ) : ℕ :=
  (((rows.filter (fun r => weekOfMonth r.date = wk)).map
      (fun r => monthKey r.date)).dedup).length

/-- The divisor actually used by `function.py` / `sce3._compute_week_hm_data`:
the distinct-month count, replaced by `1` when it is `0`. -/
def function_weekDivisor (rows : List MatrixRow) (wk : ℕ) : ℕ :=
  if function_weekMonthCount rows wk = 0 then 1 else function_weekMonthCount rows wk

/-- One cell of the week heatmap of `function.py` / `sce3._compute_week_hm_data`
for a weekday present in the subset: polars round of `sum / month_count`. -/
def function_weekCell (rows : List MatrixRow) (wk w : ℕ) (h : Fin 24) : ℤ :=
  roundHalfAway (rawCell (rows.filter (fun r => weekOfMonth r.date = wk)) w h
    / (function_weekDivisor rows wk : ℚ))

/-- The `reindex(_WEEKDAY_ORDER).fillna(0)` step of `sce5.duration_week_analysis`:
a weekday present in the subset keeps its group sum, an absent weekday becomes a
`NaN` row which `fillna(0)` turns into `0`. -/
def pdReindexCell (rows : List MatrixRow) (w : ℕ) (h : Fin 24) : ℚ :=
  if w ∈ rows.map (fun r => weekdayIdx r.date) then rawCell rows w h else 0

/-- One cell of the week heatmap of `sce5.duration_week_analysis`
(`raw.div(3).round().astype(int)`): the divisor is the constant `3` and the
rounding is the pandas (half-to-even) one. -/
def sce5_weekCell (rows : List MatrixRow) (wk w : ℕ) (h : Fin 24) : ℤ :=
  roundHalfEven
    (pdReindexCell (rows.filter (fun r => weekOfMonth r.date = wk)) w h / 3)

/-- The full week heatmap of `sce5.duration_week_analysis`: `reindex` pins the
seven canonical rows in canonical order. -/
def sce5_weekHeatmap (rows : List MatrixRow) (wk : ℕ) : List (String × (Fin 24 → ℤ)) :=
  (List.range 7).map (fun w => (WEEKDAY_ORDER.getD w "", fun h => sce5_weekCell rows wk w h))

/-! # Helper lemmas -/

/-- Membership in the `hour_range` list: exactly the whole multiples of the
step starting at `cur` that lie strictly before `fin`. -/
theorem mem_hourRange {m : ℕ} (cur fin : ℕ) :
    m ∈ hourRange cur fin ↔ cur ≤ m ∧ m < fin ∧ ∃ k, m = cur + 60 * k := by
  rw [hourRange]
  by_cases hlt : cur < fin
  · rw [if_pos hlt, List.mem_cons, mem_hourRange (cur + 60) fin]
    constructor
    · rintro (rfl | ⟨hle, hm, k, rfl⟩)
      · exact ⟨le_refl _, hlt, 0, by omega⟩
      · exact ⟨by omega, hm, k + 1, by omega⟩
    · rintro ⟨hle, hm, k, rfl⟩
      match k with
      | 0 => exact Or.inl (by omega)
      | k + 1 => exact Or.inr ⟨by omega, hm, k, by omega⟩
  · rw [if_neg hlt]
    simp only [List.not_mem_nil, false_iff]
    rintro ⟨hle, hm, -⟩
    omega
termination_by fin - cur
decreasing_by omega

/-- Summing the clipped overlaps of `[a, b)` with the aligned hour windows
`[60h, 60(h+1))`, `h < n`, yields the clipped overlap with `[0, 60n)`
(for a non-negative left endpoint `a`). -/
theorem overlap_sum (a b : ℤ) (ha : 0 ≤ a) (n : ℕ) :
    (∑ h ∈ Finset.range n,
        max 0 (min b (60 * ((h : ℤ) + 1)) - max a (60 * (h : ℤ))))
      = max 0 (min b (60 * (n : ℤ)) - a) := by
  induction n with
  | zero => simp; omega
  | succ n ih =>
    rw [Finset.sum_range_succ, ih]
    push_cast
    omega

/-- A weekday whose data-derived day count is zero occurs on no row. -/
theorem no_weekday_of_dayCount_zero (rows : List MatrixRow) (w : ℕ)
    (hz : dayCountData rows w = 0) : ∀ r ∈ rows, weekdayIdx r.date ≠ w := by
  intro r hr hw
  have hd : r.date ∈ dataDates rows := by
    unfold dataDates
    rw [List.mem_dedup]
    exact List.mem_map_of_mem MatrixRow.date hr
  unfold dayCountData at hz
  rw [List.length_eq_zero, List.filter_eq_nil_iff] at hz
  have := hz r.date hd
  simp [hw] at this

/-- A weekday occurring on no row has an all-zero aggregate. -/
theorem rawCell_zero_of_absent (rows : List MatrixRow) (w : ℕ) (h : Fin 24)
    (habs : ∀ r ∈ rows, weekdayIdx r.date ≠ w) : rawCell rows w h = 0 := by
  unfold rawCell
  have hnil : rows.filter (fun r => weekdayIdx r.date = w) = [] := by
    rw [List.filter_eq_nil_iff]
    intro r hr
    simpa using habs r hr
  rw [hnil]
  rfl

/-- Zero divisor gives `0/0 = NaN`, which `fill_nan(0)` resolves to an exact
integer `0` cell; shared by the C5 and C9 theorems. -/
theorem normalizedCell_zero_of_dayCount_zero (rows : List MatrixRow) (w : ℕ)
    (h : Fin 24) (hz : dayCountData rows w = 0) :
    normalizedCell rows w h = some 0 := by
  have habs := no_weekday_of_dayCount_zero rows w hz
  have hraw := rawCell_zero_of_absent rows w h habs
  unfold normalizedCell
  rw [hraw, hz]
  simp [floatDiv, fillNanZero, roundCastCell, roundHalfAway]
  norm_num

/-- The sce5 duration cell for hours `h < 23`, where the bin end is the genuine
`(h+1):00`. -/
theorem sce5_cell_eq (inM outM count : ℤ) (h : ℕ) (hh : h < 23) :
    sce5_durationCell inM outM count h
      = ((count * max 0 (min (sce5_out inM outM) (60 * ((h : ℤ) + 1))
            - max inM (60 * (h : ℤ))) : ℤ) : ℚ) / 60 := by
  unfold sce5_durationCell TIME_BIN_END TIME_BIN_START
  have hmod : (h + 1) % 24 = h + 1 := Nat.mod_eq_of_lt (by omega)
  rw [hmod]
  push_cast
  ring_nf

/-- Bin 23 of the sce5 duration matrix is degenerate: its end boundary is
minute `0` of the reference day, so the clipped overlap is always `0`. -/
theorem sce5_cell23_zero (inM outM count : ℤ) (h3 : 0 ≤ outM) :
    sce5_durationCell inM outM count 23 = 0 := by
  have hout : 0 ≤ sce5_out inM outM := by
    unfold sce5_out; split <;> omega
  have hkey : max 0 (min (sce5_out inM outM) (TIME_BIN_END 23)
      - max inM (TIME_BIN_START 23)) = 0 := by
    have hend : TIME_BIN_END 23 = 0 := by norm_num [TIME_BIN_END]
    have hstart : TIME_BIN_START 23 = 1380 := by norm_num [TIME_BIN_START]
    rw [hend, hstart]
    omega
  unfold sce5_durationCell
  rw [hkey]
  simp

/-! # Claim theorems -/

/-- C1 (code bug, failing input): for the row `In Room = 22:00`,
`Out Room = 02:00`, `Count = 1`, the sce5 duration matrix distributes only
`1.0` hour over its 24 bins, while the total stay duration `end - start` is
`4.0` hours — conservation fails for cross-midnight stays. -/
theorem sce5_duration_conservation_failure :
    (∑ h ∈ Finset.range 24, sce5_durationCell 1320 120 1 h) = 1 ∧
    ((sce5_out 1320 120 - 1320 : ℤ) : ℚ) / 60 = 4 := by
  have hout : sce5_out 1320 120 = 1560 := by decide
  constructor
  · simp only [Finset.sum_range_succ, Finset.sum_range_zero, sce5_durationCell,
      TIME_BIN_END, TIME_BIN_START, hout]
    norm_num [min_def, max_def]
  · rw [hout]
    norm_num

/-- C2 (counterexample): a row with equal in and out time (`08:00`, minute 480)
is not shifted by `_parse_time_series` (strict `<` comparison, the same
comparison as sce5's `wrap_mask`), yielding `end = start`, not
`end = start + 24h`, and violating `end > start`. -/
theorem parse_equal_time_not_shifted :
    parse_time_series_out 480 480 = 480 ∧
    ¬ 480 < parse_time_series_out 480 480 ∧
    sce5_out 480 480 = 480 := by decide

/-- C2 (amended): in the pandas bucketizers the shift condition is
`Out_dt <= In_dt`, so the adjusted end is always strictly after the start and
equal in/out times yield a full 24-hour stay; but `_parse_time_series` (and
sce5's `wrap_mask`) shift only on strict `<`, so there equal in/out times
yield a zero-length record with `end = start`. -/
theorem cross_midnight_policy (inM outM : ℕ) (h1 : inM < 1440) (h2 : outM < 1440) :
    inM < presence_out inM outM ∧
    (outM = inM → presence_out inM outM = inM + 1440) ∧
    parse_time_series_out inM inM = inM := by
  refine ⟨?_, ?_, ?_⟩
  · unfold presence_out; split <;> omega
  · intro he; unfold presence_out; split <;> omega
  · unfold parse_time_series_out; split <;> omega

/-- C2 witness: the amended statement instantiated at minute 480 (08:00). -/
theorem cross_midnight_policy_witness :
    (480 < 1440 ∧ 480 < 1440) ∧
    (480 < presence_out 480 480 ∧
      ((480 : ℕ) = 480 → presence_out 480 480 = 480 + 1440) ∧
      parse_time_series_out 480 480 = 480) :=
  ⟨⟨by decide, by decide⟩, cross_midnight_policy 480 480 (by decide) (by decide)⟩

/-- C3 (confirmed): in `_compute_presence_matrix`, hour bucket `h` of the
record's start day receives exactly the record's count when the interval
overlaps `[h:00, (h+1):00)` — i.e. `start < bucket_end` and `end > bucket_start`
— and `0` otherwise, however small the overlap. -/
theorem presence_mode_overlap (inM outM count h : ℕ)
    (h1 : inM < 1440) (hh : h < 24) :
    presenceCell inM outM count h
      = if inM < 60 * (h + 1) ∧ 60 * h < presence_out inM outM then count else 0 := by
  unfold presenceCell
  refine if_congr ?_ rfl rfl
  rw [mem_hourRange]
  constructor
  · rintro ⟨hle, hm, -⟩
    exact ⟨by omega, hm⟩
  · rintro ⟨ha, hb⟩
    exact ⟨by omega, hb, h - inM / 60, by omega⟩

/-- C3 witness: the stay `08:10`–`08:50` (minutes 490–530) marks bucket 8 with
the full count. -/
theorem presence_mode_overlap_witness :
    (490 < 1440 ∧ 8 < 24) ∧
    presenceCell 490 530 1 8
      = (if 490 < 60 * (8 + 1) ∧ 60 * 8 < presence_out 490 530 then 1 else 0) :=
  ⟨⟨by decide, by decide⟩, presence_mode_overlap 490 530 1 8 (by decide) (by decide)⟩

/-- C4 (code bug, failing input): with a single data row on day 5 (a Monday)
and the inclusive range `[0, 27]` (four Mondays),
`function.py._compute_normalized_heatmap` divides the Monday row by `1` — the
count of distinct Mondays present in the data — although its own docstring and
the spec require the calendar count `4` computed by the sce4 version. -/
theorem function_dayCount_ignores_range :
    dayCountData [⟨5, fun _ => 1⟩] 1 = 1 ∧
    sce4_dayCount 0 27 1 = 4 ∧
    (1 : ℕ) ≠ 4 := by decide

/-- C5 (counterexample): `_weekday_total_summary` on data containing only a
Monday (day 5) and a Friday (day 2) returns the two rows `Friday, Monday` —
alphabetical order, with the five absent weekdays omitted — not the seven
canonical rows `Sunday..Saturday`. -/
theorem weekday_total_not_canonical :
    weekdayTotalKeys [⟨5, fun _ => 1⟩, ⟨2, fun _ => 1⟩] = ["Friday", "Monday"] ∧
    (["Friday", "Monday"] : List String) ≠ WEEKDAY_ORDER := by decide

/-- C5 (amended): `_compute_normalized_heatmap` always returns exactly the
seven canonical weekday rows in the order `Sunday..Saturday` (for any input,
including an empty one), with weekdays absent from the input appearing as
all-zero rows; but `_weekday_total_summary` sorts its rows alphabetically and
omits absent weekdays. -/
theorem normalized_heatmap_canonical (rows : List MatrixRow) :
    (normalizedHeatmap rows).map Prod.fst = WEEKDAY_ORDER ∧
    ∀ w : ℕ, w < 7 → (∀ r ∈ rows, weekdayIdx r.date ≠ w) →
      ∀ h : Fin 24, normalizedCell rows w h = some 0 := by
  constructor
  · rfl
  · intro w hw habs h
    apply normalizedCell_zero_of_dayCount_zero
    unfold dayCountData
    rw [List.length_eq_zero, List.filter_eq_nil_iff]
    intro d hd
    unfold dataDates at hd
    rw [List.mem_dedup, List.mem_map] at hd
    obtain ⟨r, hr, rfl⟩ := hd
    simpa using habs r hr

/-- C5 witness: with one Monday row (day 5) the heatmap keys are canonical
and the absent Tuesday row (index 2) is zero. -/
theorem normalized_heatmap_canonical_witness :
    (normalizedHeatmap [⟨5, fun _ => 1⟩]).map Prod.fst = WEEKDAY_ORDER ∧
    normalizedCell [⟨5, fun _ => 1⟩] 2 0 = some 0 :=
  ⟨(normalized_heatmap_canonical [⟨5, fun _ => 1⟩]).1,
    (normalized_heatmap_canonical [⟨5, fun _ => 1⟩]).2 2 (by decide) (by decide) 0⟩

/-- C6 (counterexample): `sce3._compute_week_hm_data` on a dataset whose
Week 5 subset contains only day 28 (April 29 of year 0, a Wednesday) returns
the single row `Wednesday`; the absent Sunday is omitted, not emitted as a
zero row (`fill_null(0)` adds no rows). -/
theorem sce3_week5_omits_absent_weekday :
    sce3_weekKeys [⟨28, fun _ => 1⟩] 5 = ["Wednesday"] ∧
    "Sunday" ∉ (["Wednesday"] : List String) := by decide

/-- C6 (amended): in `sce5.duration_week_analysis` the
`reindex(_WEEKDAY_ORDER).fillna(0)` step does emit every canonical weekday,
and a weekday absent from the selected week's subset gets an all-zero row;
`sce3._compute_week_hm_data` instead omits such weekdays. -/
theorem sce5_week_reindex_sparsity (rows : List MatrixRow) (wk w : ℕ)
    (hw : w < 7)
    (habs : ∀ r ∈ rows, weekOfMonth r.date = wk → weekdayIdx r.date ≠ w) :
    (sce5_weekHeatmap rows wk).map Prod.fst = WEEKDAY_ORDER ∧
    ∀ h : Fin 24, sce5_weekCell rows wk w h = 0 := by
  constructor
  · rfl
  · intro h
    unfold sce5_weekCell pdReindexCell
    rw [if_neg]
    · norm_num [roundHalfEven]
    · intro hmem
      rw [List.mem_map] at hmem
      obtain ⟨r, hr, hwd⟩ := hmem
      rw [List.mem_filter] at hr
      exact habs r hr.1 (by simpa using hr.2) hwd

/-- C6 witness: one Week-5 row on a Wednesday (day 28); Sunday (index 0) is
absent from Week 5 yet present as an all-zero row. -/
theorem sce5_week_reindex_sparsity_witness :
    ((0 : ℕ) < 7) ∧
    ((sce5_weekHeatmap [⟨28, fun _ => 1⟩] 5).map Prod.fst = WEEKDAY_ORDER ∧
      sce5_weekCell [⟨28, fun _ => 1⟩] 5 0 0 = 0) :=
  ⟨by decide,
    (sce5_week_reindex_sparsity [⟨28, fun _ => 1⟩] 5 0 (by decide) (by decide)).1,
    (sce5_week_reindex_sparsity [⟨28, fun _ => 1⟩] 5 0 (by decide) (by decide)).2 0⟩

/-- C7 (counterexample): a Week-1 dataset contained in a single calendar month
(day 0) with an aggregate cell of `6`: `sce5.duration_week_analysis` computes
`round(6 / 3) = 2`, but the claimed distinct-month rule (divisor
`max 1 1 = 1`) gives `6`. -/
theorem sce5_week_divides_by_three :
    sce5_weekCell [⟨0, fun _ => 6⟩] 1 3 0 = 2 ∧
    function_weekMonthCount [⟨0, fun _ => 6⟩] 1 = 1 ∧
    roundHalfAway ((6 : ℚ) / ((max 1 1 : ℕ) : ℚ)) = 6 ∧
    (2 : ℤ) ≠ 6 := by
  have hfil : ([⟨0, fun _ => 6⟩] : List MatrixRow).filter
      (fun r => weekOfMonth r.date = 1) = [⟨0, fun _ => 6⟩] := rfl
  have hfil3 : ([⟨0, fun _ => 6⟩] : List MatrixRow).filter
      (fun r => weekdayIdx r.date = 3) = [⟨0, fun _ => 6⟩] := rfl
  have hraw : rawCell [(⟨0, fun _ => 6⟩ : MatrixRow)] 3 0 = 6 := by
    unfold rawCell
    rw [hfil3]
    norm_num
  refine ⟨?_, by decide, ?_, by decide⟩
  · unfold sce5_weekCell pdReindexCell
    rw [hfil, if_pos (by decide), hraw]
    norm_num [roundHalfEven]
  · norm_num [roundHalfAway]

/-- C7 (amended): `function.py` / `sce3._compute_week_hm_data` divide each
cell by the number of distinct calendar months present in the filtered week's
rows with minimum divisor 1, but `sce5.duration_week_analysis` (and
`_compute_week1_pie_data`) divide by the fixed constant 3. -/
theorem function_week_divisor_spec (rows : List MatrixRow) (wk : ℕ) :
    function_weekDivisor rows wk = max 1 (function_weekMonthCount rows wk) ∧
    ∀ w h, function_weekCell rows wk w h
      = roundHalfAway
          (rawCell (rows.filter (fun r => weekOfMonth r.date = wk)) w h
            / ((max 1 (function_weekMonthCount rows wk) : ℕ) : ℚ)) := by
  have hd : function_weekDivisor rows wk = max 1 (function_weekMonthCount rows wk) := by
    unfold function_weekDivisor
    split <;> omega
  exact ⟨hd, fun w h => by unfold function_weekCell; rw [hd]⟩

/-- C8 (counterexample): an sce5 week cell whose pre-rounding value is exactly
`0.5` (aggregate `1.5`, divisor `3`) is rounded by pandas to `0` — half to
even — while the claimed half-away-from-zero policy (`round(2/4) = 1`)
requires `1`. -/
theorem sce5_round_half_even_at_half :
    sce5_weekCell [⟨0, fun _ => 3/2⟩] 1 3 0 = 0 ∧
    roundHalfAway (1/2) = 1 ∧
    (0 : ℤ) ≠ 1 := by
  have hfil : ([⟨0, fun _ => 3/2⟩] : List MatrixRow).filter
      (fun r => weekOfMonth r.date = 1) = [⟨0, fun _ => 3/2⟩] := rfl
  have hfil3 : ([⟨0, fun _ => 3/2⟩] : List MatrixRow).filter
      (fun r => weekdayIdx r.date = 3) = [⟨0, fun _ => 3/2⟩] := rfl
  have hraw : rawCell [(⟨0, fun _ => 3/2⟩ : MatrixRow)] 3 0 = 3/2 := by
    unfold rawCell
    rw [hfil3]
    norm_num
  refine ⟨?_, ?_, by decide⟩
  · unfold sce5_weekCell pdReindexCell
    rw [hfil, if_pos (by decide), hraw]
    norm_num [roundHalfEven]
  · norm_num [roundHalfAway]

/-- C8 (amended): every cell is rounded to a nearest integer, but the tie
policy differs by call site: the polars `.round()` used by the normalized
heatmaps rounds half away from zero (`x + 1/2 ↦ x + 1` for `x ≥ 0`), while the
pandas `.round()` used by sce5 rounds half to even; the half-away rounding is
always within `1/2` of its argument. -/
theorem rounding_policy_split (x : ℤ) (hx : 0 ≤ x) :
    roundHalfAway ((x : ℚ) + 1/2) = x + 1 ∧
    roundHalfEven ((x : ℚ) + 1/2) = (if 2 ∣ x then x else x + 1) ∧
    ∀ q : ℚ, |q - (roundHalfAway q : ℚ)| ≤ 1/2 := by
  have hxq : (0 : ℚ) ≤ (x : ℚ) := by exact_mod_cast hx
  have hfl : ⌊(x : ℚ) + 1/2⌋ = x := by
    rw [add_comm, Int.floor_add_int]
    norm_num
  refine ⟨?_, ?_, ?_⟩
  · unfold roundHalfAway
    rw [if_neg (by linarith)]
    have hone : (x : ℚ) + 1/2 + 1/2 = ((x + 1 : ℤ) : ℚ) := by push_cast; ring
    rw [hone, Int.floor_intCast]
  · unfold roundHalfEven
    rw [hfl]
    have hr : (x : ℚ) + 1/2 - (x : ℤ) = 1/2 := by push_cast; ring
    rw [hr]
    norm_num
  · intro q
    unfold roundHalfAway
    split
    · have hf1 := Int.floor_le (-q + 1/2)
      have hf2 := Int.lt_floor_add_one (-q + 1/2)
      rw [abs_le]
      constructor <;> push_cast at * <;> linarith
    · have hf1 := Int.floor_le (q + 1/2)
      have hf2 := Int.lt_floor_add_one (q + 1/2)
      rw [abs_le]
      constructor <;> push_cast at * <;> linarith

/-- C8 witness: at `x = 0`, the polars rounding sends `0.5` to `1` and the
pandas rounding sends it to `0`. -/
theorem rounding_policy_split_witness :
    ((0 : ℤ) ≤ 0) ∧
    (roundHalfAway (((0 : ℤ) : ℚ) + 1/2) = (0 : ℤ) + 1 ∧
      roundHalfEven (((0 : ℤ) : ℚ) + 1/2) = (if 2 ∣ (0 : ℤ) then (0 : ℤ) else 0 + 1) ∧
      ∀ q : ℚ, |q - (roundHalfAway q : ℚ)| ≤ 1/2) :=
  ⟨by decide, rounding_policy_split 0 (by decide)⟩

/-- C9 (confirmed): in `_compute_normalized_heatmap`, a weekday key whose
`day_count` is `0` necessarily has a zero aggregate (both are derived from the
same data), so its cells are `0/0 = NaN`, which `fill_nan(0)` resolves to the
integer `0` — never `NaN`, never `inf`, never a division/cast error. -/
theorem normalize_zero_divisor_yields_zero (rows : List MatrixRow) (w : ℕ)
    (h : Fin 24) (hz : dayCountData rows w = 0) :
    normalizedCell rows w h = some 0 :=
  normalizedCell_zero_of_dayCount_zero rows w h hz

/-- C9 witness: one Monday row (day 5); Sunday (index 0) has day count `0`
and its normalized cell is the integer `0`. -/
theorem normalize_zero_divisor_yields_zero_witness :
    dayCountData [⟨5, fun _ => 1⟩] 0 = 0 ∧
    normalizedCell [⟨5, fun _ => 1⟩] 0 0 = some 0 :=
  ⟨by decide, normalize_zero_divisor_yields_zero [⟨5, fun _ => 1⟩] 0 0 (by decide)⟩

/-- C10 (confirmed): for every row of `sce5._compute_duration_matrix`, hour
column 23 is `0`, and the 24 columns together account only for the part of the
stay before 23:00 (minute 1380) of the start day — everything at or after
23:00, including the entire post-midnight portion of a cross-midnight stay, is
attributed to no bucket, because bin 23's end boundary `(23+1) % 24 = 0`
clips every bin-23 overlap to zero. -/
theorem sce5_bin23_always_zero (inM outM count : ℤ)
    (h1 : 0 ≤ inM) (h2 : inM < 1440) (h3 : 0 ≤ outM) (h4 : outM < 1440) :
    sce5_durationCell inM outM count 23 = 0 ∧
    (∑ h ∈ Finset.range 24, sce5_durationCell inM outM count h)
      = (count : ℚ) * ((max 0 (min (sce5_out inM outM) 1380 - inM) : ℤ) : ℚ) / 60 := by
  refine ⟨sce5_cell23_zero inM outM count h3, ?_⟩
  rw [Finset.sum_range_succ, sce5_cell23_zero inM outM count h3, add_zero]
  have hcell : ∀ h ∈ Finset.range 23,
      sce5_durationCell inM outM count h
        = ((count * max 0 (min (sce5_out inM outM) (60 * ((h : ℤ) + 1))
              - max inM (60 * (h : ℤ))) : ℤ) : ℚ) / 60 := by
    intro h hmem
    exact sce5_cell_eq inM outM count h (Finset.mem_range.mp hmem)
  rw [Finset.sum_congr rfl hcell, ← Finset.sum_div, ← Int.cast_sum,
    ← Finset.mul_sum, overlap_sum inM (sce5_out inM outM) h1 23]
  norm_num

/-- C10 witness: the stay `10:00`–`11:00` (minutes 600–660) with count 2. -/
theorem sce5_bin23_always_zero_witness :
    ((0 : ℤ) ≤ 600 ∧ (600 : ℤ) < 1440 ∧ (0 : ℤ) ≤ 660 ∧ (660 : ℤ) < 1440) ∧
    (sce5_durationCell 600 660 2 23 = 0 ∧
      (∑ h ∈ Finset.range 24, sce5_durationCell 600 660 2 h)
        = ((2 : ℤ) : ℚ) * ((max 0 (min (sce5_out 600 660) 1380 - 600) : ℤ) : ℚ) / 60) :=
  ⟨⟨by decide, by decide, by decide, by decide⟩,
    sce5_bin23_always_zero 600 660 2 (by decide) (by decide) (by decide) (by decide)⟩

end HORA
